import Mathlib

/-!
Shallow embedding of the surat training script (surat.py): the dataset
sampler with its window extraction, the target loading, the frame count
computation, the shape behaviour of the formant analysis stack, the
checkpoint schedule of the training loop, and the motion loss.
-/

namespace Surat

/-- Number of output values per animation frame: 8320 vertex positions in
3 dimensions, the constant OUTPUT_COUNT of the script. -/
def OUTPUT_COUNT : ℕ := 8320 * 3

/-- Animation frame rate used throughout the script, 29.97 frames per
second, as an exact rational. -/
def animFPS : ℚ := 2997 / 100

/-- Semantics of Python int() on a real number: truncation toward zero. -/
def pyInt (q : ℚ) : ℤ := if 0 ≤ q then ⌊q⌋ else ⌈q⌉

/-- Frame count computed in Data.init: int(animFPS * (samples / sampleRate)),
where the sample rate has already been normalised to 16000 by the resampling
branch just above. -/
def frameCountOf (samples : ℕ) : ℤ := pyInt (animFPS * ((samples : ℚ) / 16000))

/-- Dataset state after construction: the MFCC feature rows (each a vector of
32 cepstral coefficients), the animation frame count, the preview flag, and
the on-disk target arrays (the contents of the file mask.n.npy for each n). -/
structure Data where
  MFCC : List (List ℚ)
  count : ℕ
  preview : Bool
  files : ℤ → List ℚ

/-- Length of the feature sequence, MFCC.size()[0] in the script. -/
def Data.MFCCLen (d : Data) : ℕ := d.MFCC.length

/-- Flat tensor model: a shape together with the row-major flat data. -/
structure Tensor where
  shape : List ℕ
  data : List ℚ
deriving DecidableEq

/-- Value returned by one call to Data.getitem: the (wrapped) index, the
input tensor, the target tensor, and the names of the target files read
during the call. -/
structure Item where
  idx : ℤ
  input : Tensor
  target : Tensor
  reads : List String
deriving DecidableEq

/-- Row of the feature sequence at an integer position taken modulo the
sequence length, the access pattern produced by torch.roll. -/
def Data.row (d : Data) (z : ℤ) : List ℚ :=
  d.MFCC.getD (z % (d.MFCCLen : ℤ)).toNat []

/-- First 32 rows of torch.roll(MFCC, s, dims=0): row j of the rolled
sequence is row (j - s) mod T of the original. -/
def Data.rollTake32 (d : Data) (s : ℤ) : List (List ℚ) :=
  (List.range 32).map fun j : ℕ => d.row ((j : ℤ) - s)

/-- Out-of-range window built in the guarded branch of Data.getitem:
the first 32 rows of roll(MFCC, -a + 32) followed by the first 32 rows of
roll(MFCC, -a). -/
def Data.rollWindow (d : Data) (a : ℤ) : List (List ℚ) :=
  d.rollTake32 (a * -1 + 32) ++ d.rollTake32 (a * -1)

/-- In-range window: the Python slice MFCC[a - 32 : a + 32]. -/
def Data.sliceWindow (d : Data) (a : ℤ) : List (List ℚ) :=
  (d.MFCC.take (a + 32).toNat).drop (a - 32).toNat

/-- Negative indices wrap by adding the frame count, as at the top of
Data.getitem. -/
def Data.effIndex (d : Data) (i : ℤ) : ℤ :=
  if i < 0 then (d.count : ℤ) + i else i

/-- Audio feature position for frame k: int(k * (MFCCLen / count) + shift),
with shift the random value drawn for the current call (0 when shiftRandom
is off). -/
def Data.audioIdxAt (d : Data) (shift : ℕ) (k : ℤ) : ℤ :=
  pyInt ((k : ℚ) * ((d.MFCCLen : ℚ) / (d.count : ℚ)) + (shift : ℚ))

/-- The 128 feature rows selected for the pair of windows at index i, before
the view to shape (2,1,64,32): the rolled construction when either window
leaves the valid range, the plain slices otherwise. -/
def Data.inputRows (d : Data) (shift : ℕ) (i : ℤ) : List (List ℚ) :=
  let a := d.audioIdxAt shift (d.effIndex i)
  let ap := d.audioIdxAt shift (d.effIndex i + 1)
  if a < 32 ∨ ap < 32 ∨ (d.MFCCLen : ℤ) < a + 32 ∨ (d.MFCCLen : ℤ) < ap + 32 then
    d.rollWindow a ++ d.rollWindow ap
  else
    d.sliceWindow a ++ d.sliceWindow ap

/-- Left-pad a decimal string with zeros to the given width. -/
def padZeros (w : ℕ) (s : String) : String :=
  String.mk (List.replicate (w - s.length) '0') ++ s

/-- Python format of an integer under the 05d specification: zero-padded to
width five, the width counting a possible sign. -/
def fmt05 (n : ℤ) : String :=
  if n < 0 then "-" ++ padZeros 4 (Nat.repr (-n).toNat)
  else padZeros 5 (Nat.repr n.toNat)

/-- Name of the on-disk target array for frame n. -/
def maskName (n : ℤ) : String := "mask." ++ fmt05 n ++ ".npy"

/-- One call of Data.getitem, with the random shift drawn for this call
passed explicitly; the same drawn value enters both window positions.
Tensors record the shape handed to the view call together with the flat
data, and reads records which target files the call opened. -/
def Data.getitem (d : Data) (shift : ℕ) (i : ℤ) : Item :=
  let iEff := d.effIndex i
  let rows := d.inputRows shift i
  if d.preview then
    { idx := iEff
      input := { shape := [1, 64, 32], data := rows.flatten.take (64 * 32) }
      target := { shape := [1, OUTPUT_COUNT], data := List.replicate OUTPUT_COUNT 0 }
      reads := [] }
  else
    let raw := d.files (iEff + 1) ++ d.files (iEff + 2)
    { idx := iEff
      input := { shape := [2, 1, 64, 32], data := rows.flatten }
      target := { shape := [raw.length / OUTPUT_COUNT, OUTPUT_COUNT]
                  data := raw.map fun x => x * (1 / 2) }
      reads := [maskName (iEff + 1), maskName (iEff + 2)] }

/-- Modelled from the spec: the window construction in the words of the edge
policy, rows audioIdx - 32 up to audioIdx + 32 taken modulo the feature
sequence length. Used as the comparison point for the wraparound claim. -/
def specWrapWindow (d : Data) (a : ℤ) : List (List ℚ) :=
  (List.range 64).map fun j : ℕ => d.row (a - 32 + (j : ℤ))

/-- Channel, height and width of one sample inside a 4-dimensional batch. -/
structure Shape3 where
  c : ℕ
  h : ℕ
  w : ℕ
deriving DecidableEq

/-- Output size of a convolution along one axis, dilation 1:
floor of (n + 2 p - k) / s, plus one. -/
def convOutDim (n k s p : ℕ) : ℕ := (n + 2 * p - k) / s + 1

/-- Shape transformation of nn.Conv2d with the given in and out channels,
kernel, stride and padding, failing when the channels mismatch or the kernel
exceeds the padded input. -/
def conv2dShape (cin cout kh kw sh sw ph pw : ℕ) (s : Shape3) : Option Shape3 :=
  if s.c = cin ∧ kh ≤ s.h + 2 * ph ∧ kw ≤ s.w + 2 * pw then
    some { c := cout, h := convOutDim s.h kh sh ph, w := convOutDim s.w kw sw pw }
  else none

/-- Per-sample shape function of the formantAnalysis stack: the five
convolutions of the script in order; batch normalisation and leaky ReLU
preserve shapes and so do not appear. -/
def formantAnalysisShape (s : Shape3) : Option Shape3 :=
  ((((conv2dShape 1 72 1 3 1 2 0 1 s).bind
    (conv2dShape 72 108 1 3 1 2 0 1)).bind
    (conv2dShape 108 162 1 3 1 2 0 1)).bind
    (conv2dShape 162 243 1 3 1 2 0 1)).bind
    (conv2dShape 243 256 1 2 1 2 0 0)

/-- A parameter save performed by train: either the in-loop save tagged with
a 1-based epoch number, or the save after the loop. -/
inductive SaveEvent where
  | epochSave (n : ℕ)
  | finSave
deriving DecidableEq

/-- Checkpoint saves performed by train over a run of epochCount epochs, in
order: one inside the loop after each epoch whose 1-based number is
divisible by 50, and one after the loop. -/
def saveTrace (epochCount : ℕ) : List SaveEvent :=
  ((List.range epochCount).filterMap fun e =>
    if (e + 1) % 50 = 0 then some (SaveEvent.epochSave (e + 1)) else none)
    ++ [SaveEvent.finSave]

/-- File name used by the in-loop save for 1-based epoch e. -/
def epochCkptName (runStr : String) (e : ℕ) : String :=
  runStr ++ "_E" ++ padZeros 5 (Nat.repr e) ++ ".pth"

/-- File name used by the save after the loop. -/
def finCkptName (runStr : String) : String := runStr ++ "_fin.pth"

/-- Fixed epoch budget of train. -/
def trainEpochCount : ℕ := 50000

/-- Squared error summed over the output dimension, the building block of
the three loss terms: MSELoss with no reduction followed by a sum over the
last dimension. -/
def sqErrSum (a b : List ℚ) : ℚ :=
  (List.zipWith (fun x y => (x - y) ^ 2) a b).sum

/-- Elementwise difference of two vectors, torch subtraction. -/
def vecSub (a b : List ℚ) : List ℚ := List.zipWith (fun x y => x - y) a b

/-- Motion loss of train: mean over the batch of the summed squared error
between the prediction delta and the target delta of each pair. Each batch
element carries ((prediction frame1, prediction frame2),
(target frame1, target frame2)). -/
def motionLoss (batch : List ((List ℚ × List ℚ) × (List ℚ × List ℚ))) : ℚ :=
  (batch.map fun x => sqErrSum (vecSub x.1.2 x.1.1) (vecSub x.2.2 x.2.1)).sum
    / (batch.length : ℚ)

/-- Small concrete training-mode dataset used to instantiate the theorems:
70 feature rows of width 32, frame count 2, and every target file holding
OUTPUT_COUNT values equal to 1. -/
def sampleData : Data :=
  { MFCC := List.replicate 70 (List.replicate 32 0)
    count := 2
    preview := false
    files := fun _ => List.replicate OUTPUT_COUNT 1 }

/-- Training-mode dataset with frame count 3, used for the negative-index
statements. -/
def sampleData3 : Data :=
  { MFCC := List.replicate 70 (List.replicate 32 0)
    count := 3
    preview := false
    files := fun _ => List.replicate OUTPUT_COUNT 1 }

/-- Concrete preview-mode dataset: same features, no target files. -/
def previewData : Data :=
  { MFCC := List.replicate 70 (List.replicate 32 0)
    count := 2
    preview := true
    files := fun _ => [] }

/-- Any position wrapped modulo a positive sequence length lands inside the
sequence. -/
lemma wrapIdx_lt (T : ℕ) (hT : 0 < T) (z : ℤ) : (z % (T : ℤ)).toNat < T := by
  have h1 : 0 ≤ z % (T : ℤ) := Int.emod_nonneg z (by exact_mod_cast hT.ne')
  have h2 : z % (T : ℤ) < (T : ℤ) := Int.emod_lt_of_pos z (by exact_mod_cast hT)
  omega

/-- The rolled two-piece construction of the script equals the contiguous
window taken modulo the sequence length. -/
lemma rollWindow_eq_specWrap (d : Data) (a : ℤ) :
    d.rollWindow a = specWrapWindow d a := by
  unfold Data.rollWindow Data.rollTake32 specWrapWindow
  apply List.ext_getElem
  · simp
  · intro j h1 h2
    simp only [List.length_map, List.length_range] at h2
    by_cases hj : j < 32
    · rw [List.getElem_append_left (by simpa using hj)]
      simp only [List.getElem_map, List.getElem_range]
      congr 1
      ring
    · rw [List.getElem_append_right (by simpa using not_lt.1 hj)]
      simp only [List.getElem_map, List.getElem_range, List.length_map,
        List.length_range]
      congr 1
      have h32 : (32 : ℕ) ≤ j := not_lt.1 hj
      rw [Nat.cast_sub h32]
      push_cast
      ring

/-- C1: for any index whose naive 64-row window for frame i or frame i+1
would leave the valid feature range, Data.getitem builds both windows by
circular wraparound: row j of each 64-row window is feature row
(audioIdx - 32 + j) modulo MFCCLen, every wrapped read lands inside the
feature sequence, and in non-preview mode the input tensor holds exactly
the flattened pair of wrapped windows, so no read is out of range and
nothing raises. -/
theorem sampler_wraparound (d : Data) (shift : ℕ) (i : ℤ)
    (hT : 0 < d.MFCCLen)
    (hguard : d.audioIdxAt shift (d.effIndex i) < 32 ∨
      d.audioIdxAt shift (d.effIndex i + 1) < 32 ∨
      (d.MFCCLen : ℤ) < d.audioIdxAt shift (d.effIndex i) + 32 ∨
      (d.MFCCLen : ℤ) < d.audioIdxAt shift (d.effIndex i + 1) + 32) :
    d.inputRows shift i =
      specWrapWindow d (d.audioIdxAt shift (d.effIndex i)) ++
        specWrapWindow d (d.audioIdxAt shift (d.effIndex i + 1))
    ∧ (d.preview = false →
        (d.getitem shift i).input.data =
          (specWrapWindow d (d.audioIdxAt shift (d.effIndex i)) ++
            specWrapWindow d (d.audioIdxAt shift (d.effIndex i + 1))).flatten)
    ∧ (∀ z : ℤ, (z % (d.MFCCLen : ℤ)).toNat < d.MFCCLen) := by
  have hrows : d.inputRows shift i =
      specWrapWindow d (d.audioIdxAt shift (d.effIndex i)) ++
        specWrapWindow d (d.audioIdxAt shift (d.effIndex i + 1)) := by
    simp only [Data.inputRows]
    rw [if_pos hguard, rollWindow_eq_specWrap, rollWindow_eq_specWrap]
  refine ⟨hrows, ?_, fun z => wrapIdx_lt _ hT z⟩
  intro hp
  simp only [Data.getitem, hp, Bool.false_eq_true, if_false]
  rw [hrows]

/-- Witness for C1 at the concrete dataset, index 0, shift 0, where the
first window starts at audio position 0 and wraps. -/
theorem sampler_wraparound_witness :
    0 < sampleData.MFCCLen ∧
    (sampleData.audioIdxAt 0 (sampleData.effIndex 0) < 32 ∨
      sampleData.audioIdxAt 0 (sampleData.effIndex 0 + 1) < 32 ∨
      (sampleData.MFCCLen : ℤ) < sampleData.audioIdxAt 0 (sampleData.effIndex 0) + 32 ∨
      (sampleData.MFCCLen : ℤ) < sampleData.audioIdxAt 0 (sampleData.effIndex 0 + 1) + 32) ∧
    (sampleData.inputRows 0 0 =
      specWrapWindow sampleData (sampleData.audioIdxAt 0 (sampleData.effIndex 0)) ++
        specWrapWindow sampleData (sampleData.audioIdxAt 0 (sampleData.effIndex 0 + 1))
    ∧ (sampleData.preview = false →
        (sampleData.getitem 0 0).input.data =
          (specWrapWindow sampleData (sampleData.audioIdxAt 0 (sampleData.effIndex 0)) ++
            specWrapWindow sampleData (sampleData.audioIdxAt 0 (sampleData.effIndex 0 + 1))).flatten)
    ∧ (∀ z : ℤ, (z % (sampleData.MFCCLen : ℤ)).toNat < sampleData.MFCCLen)) := by
  have h1 : 0 < sampleData.MFCCLen := by simp [sampleData, Data.MFCCLen]
  have h2 : sampleData.audioIdxAt 0 (sampleData.effIndex 0) < 32 ∨
      sampleData.audioIdxAt 0 (sampleData.effIndex 0 + 1) < 32 ∨
      (sampleData.MFCCLen : ℤ) < sampleData.audioIdxAt 0 (sampleData.effIndex 0) + 32 ∨
      (sampleData.MFCCLen : ℤ) < sampleData.audioIdxAt 0 (sampleData.effIndex 0 + 1) + 32 :=
    Or.inl (by norm_num [Data.audioIdxAt, Data.effIndex, pyInt, sampleData, Data.MFCCLen])
  exact ⟨h1, h2, sampler_wraparound sampleData 0 0 h1 h2⟩

/-- Every wrapped row access returns an actual row of the feature sequence. -/
lemma row_mem (d : Data) (hT : 0 < d.MFCCLen) (z : ℤ) : d.row z ∈ d.MFCC := by
  unfold Data.row
  rw [List.getD_eq_getElem _ _ (wrapIdx_lt _ hT z)]
  exact List.getElem_mem _

/-- Rows delivered by the wrapped access have the common row width. -/
lemma row_length (d : Data) (hT : 0 < d.MFCCLen)
    (hrows : ∀ r ∈ d.MFCC, r.length = 32) (z : ℤ) : (d.row z).length = 32 :=
  hrows _ (row_mem d hT z)

/-- The 128 selected rows always number 128 and all have width 32. -/
lemma inputRows_spec (d : Data) (shift : ℕ) (i : ℤ) (hT : 0 < d.MFCCLen)
    (hrows : ∀ r ∈ d.MFCC, r.length = 32) :
    (d.inputRows shift i).length = 128 ∧
      ∀ r ∈ d.inputRows shift i, r.length = 32 := by
  simp only [Data.inputRows]
  split_ifs with h
  · constructor
    · simp [Data.rollWindow, Data.rollTake32]
    · intro r hr
      simp only [Data.rollWindow, Data.rollTake32, List.mem_append,
        List.mem_map, List.mem_range] at hr
      rcases hr with (⟨j, _, hj⟩ | ⟨j, _, hj⟩) | (⟨j, _, hj⟩ | ⟨j, _, hj⟩) <;>
        exact hj ▸ row_length d hT hrows _
  · push_neg at h
    obtain ⟨h1, h2, h3, h4⟩ := h
    simp only [Data.MFCCLen] at h3 h4
    constructor
    · simp only [Data.sliceWindow, List.length_append, List.length_drop,
        List.length_take]
      omega
    · intro r hr
      rcases List.mem_append.1 hr with hm | hm <;>
        exact hrows r (List.mem_of_mem_take (List.mem_of_mem_drop hm))

/-- Flattening a list of width-32 rows multiplies the length by 32. -/
lemma flatten_length_of_rows (L : List (List ℚ))
    (h : ∀ r ∈ L, r.length = 32) : L.flatten.length = 32 * L.length := by
  induction L with
  | nil => simp
  | cons hd tl ih =>
    simp only [List.flatten_cons, List.length_append, List.length_cons]
    rw [h hd (by simp), ih fun r hr => h r (by simp [hr])]
    ring

/-- C2: in non-preview mode, for any valid index, Data.getitem returns an
input tensor of shape (2,1,64,32) whose data has matching size, and a
target tensor of shape (2, OUTPUT_COUNT) whose data has matching size;
neither shape depends on the index. -/
theorem getitem_shapes (d : Data) (shift : ℕ) (i : ℤ)
    (hp : d.preview = false) (hT : 0 < d.MFCCLen)
    (hrows : ∀ r ∈ d.MFCC, r.length = 32) (hi : 0 ≤ i)
    (hf1 : (d.files (i + 1)).length = OUTPUT_COUNT)
    (hf2 : (d.files (i + 2)).length = OUTPUT_COUNT) :
    (d.getitem shift i).input.shape = [2, 1, 64, 32]
    ∧ (d.getitem shift i).input.data.length = 2 * 1 * 64 * 32
    ∧ (d.getitem shift i).target.shape = [2, OUTPUT_COUNT]
    ∧ (d.getitem shift i).target.data.length = 2 * OUTPUT_COUNT := by
  have heff : d.effIndex i = i := by simp [Data.effIndex, not_lt.2 hi]
  obtain ⟨hlen, hr32⟩ := inputRows_spec d shift i hT hrows
  have hflat : (d.inputRows shift i).flatten.length = 4096 := by
    rw [flatten_length_of_rows _ hr32, hlen]
  refine ⟨?_, ?_, ?_, ?_⟩
  · simp [Data.getitem, hp, heff]
  · simp only [Data.getitem, hp, Bool.false_eq_true, if_false, heff]
    omega
  · simp only [Data.getitem, hp, Bool.false_eq_true, if_false, heff,
      List.length_append, hf1, hf2, OUTPUT_COUNT]
  · simp only [Data.getitem, hp, Bool.false_eq_true, if_false, heff,
      List.length_map, List.length_append, hf1, hf2]
    omega

/-- Witness for C2 at the concrete dataset, index 0, shift 0. -/
theorem getitem_shapes_witness :
    sampleData.preview = false ∧ 0 < sampleData.MFCCLen ∧
    (∀ r ∈ sampleData.MFCC, r.length = 32) ∧ (0 : ℤ) ≤ 0 ∧
    (sampleData.files (0 + 1)).length = OUTPUT_COUNT ∧
    (sampleData.files (0 + 2)).length = OUTPUT_COUNT ∧
    ((sampleData.getitem 0 0).input.shape = [2, 1, 64, 32]
    ∧ (sampleData.getitem 0 0).input.data.length = 2 * 1 * 64 * 32
    ∧ (sampleData.getitem 0 0).target.shape = [2, OUTPUT_COUNT]
    ∧ (sampleData.getitem 0 0).target.data.length = 2 * OUTPUT_COUNT) := by
  have hp : sampleData.preview = false := rfl
  have hT : 0 < sampleData.MFCCLen := by simp [sampleData, Data.MFCCLen]
  have hrows : ∀ r ∈ sampleData.MFCC, r.length = 32 := by
    intro r hr
    rw [List.eq_of_mem_replicate hr]
    simp
  have hi : (0 : ℤ) ≤ 0 := le_refl 0
  have hf1 : (sampleData.files (0 + 1)).length = OUTPUT_COUNT := by simp [sampleData]
  have hf2 : (sampleData.files (0 + 2)).length = OUTPUT_COUNT := by simp [sampleData]
  exact ⟨hp, hT, hrows, hi, hf1, hf2,
    getitem_shapes sampleData 0 0 hp hT hrows hi hf1 hf2⟩

/-- C3: in non-preview mode, Data.getitem reads exactly the two target
files whose 1-indexed zero-padded names come from frames i+1 and i+2,
concatenates their contents, reshapes to (2, OUTPUT_COUNT), and multiplies
by one half, taking raw values inside [-2, 2] into [-1, 1]. -/
theorem target_loading (d : Data) (shift : ℕ) (i : ℤ)
    (hp : d.preview = false) (hi : 0 ≤ i)
    (hf1 : (d.files (i + 1)).length = OUTPUT_COUNT)
    (hf2 : (d.files (i + 2)).length = OUTPUT_COUNT) :
    (d.getitem shift i).reads = [maskName (i + 1), maskName (i + 2)]
    ∧ (d.getitem shift i).target.data =
        (d.files (i + 1) ++ d.files (i + 2)).map (fun x => x * (1 / 2))
    ∧ (d.getitem shift i).target.shape = [2, OUTPUT_COUNT]
    ∧ ((∀ x ∈ d.files (i + 1) ++ d.files (i + 2), -2 ≤ x ∧ x ≤ 2) →
        ∀ y ∈ (d.getitem shift i).target.data, -1 ≤ y ∧ y ≤ 1) := by
  have heff : d.effIndex i = i := by simp [Data.effIndex, not_lt.2 hi]
  refine ⟨?_, ?_, ?_, ?_⟩
  · simp [Data.getitem, hp, heff]
  · simp [Data.getitem, hp, heff]
  · simp only [Data.getitem, hp, Bool.false_eq_true, if_false, heff,
      List.length_append, hf1, hf2, OUTPUT_COUNT]
  · intro hb y hy
    simp only [Data.getitem, hp, Bool.false_eq_true, if_false, heff,
      List.mem_map] at hy
    obtain ⟨x, hx, rfl⟩ := hy
    obtain ⟨hx1, hx2⟩ := hb x hx
    constructor <;> linarith

/-- Witness for C3 at the concrete dataset, index 0, shift 0. -/
theorem target_loading_witness :
    sampleData.preview = false ∧ (0 : ℤ) ≤ 0 ∧
    (sampleData.files (0 + 1)).length = OUTPUT_COUNT ∧
    (sampleData.files (0 + 2)).length = OUTPUT_COUNT ∧
    ((sampleData.getitem 0 0).reads = [maskName (0 + 1), maskName (0 + 2)]
    ∧ (sampleData.getitem 0 0).target.data =
        (sampleData.files (0 + 1) ++ sampleData.files (0 + 2)).map
          (fun x => x * (1 / 2))
    ∧ (sampleData.getitem 0 0).target.shape = [2, OUTPUT_COUNT]
    ∧ ((∀ x ∈ sampleData.files (0 + 1) ++ sampleData.files (0 + 2),
          -2 ≤ x ∧ x ≤ 2) →
        ∀ y ∈ (sampleData.getitem 0 0).target.data, -1 ≤ y ∧ y ≤ 1)) := by
  have hp : sampleData.preview = false := rfl
  have hi : (0 : ℤ) ≤ 0 := le_refl 0
  have hf1 : (sampleData.files (0 + 1)).length = OUTPUT_COUNT := by simp [sampleData]
  have hf2 : (sampleData.files (0 + 2)).length = OUTPUT_COUNT := by simp [sampleData]
  exact ⟨hp, hi, hf1, hf2, target_loading sampleData 0 0 hp hi hf1 hf2⟩

/-- The padded file name produced for on-disk frame 1. -/
theorem maskName_one : maskName 1 = "mask.00001.npy" := by decide

/-- C4 counterexample: a one-second waveform of 16000 samples yields a
frame count of 29, while rounding 29.97 to the nearest integer yields 30,
so the frame count is not round(animFPS times duration). -/
theorem frameCount_round_counterexample :
    frameCountOf 16000 ≠ round (animFPS * ((16000 : ℚ) / 16000)) := by
  have h1 : frameCountOf 16000 = 29 := by
    norm_num [frameCountOf, pyInt, animFPS]
  have h2 : round (animFPS * ((16000 : ℚ) / 16000)) = 30 := by
    rw [round_eq]
    norm_num [animFPS]
  omega

/-- C4 amended: the frame count is the truncation (floor, for nonnegative
durations) of animFPS times the duration, equal to the integer division of
2997 times the sample count by 1600000. -/
theorem frameCount_trunc :
    ∀ samples : ℕ, frameCountOf samples = ((2997 * samples) / 1600000 : ℕ) := by
  intro s
  have hq : animFPS * ((s : ℚ) / 16000) =
      ((2997 * s : ℕ) : ℚ) / ((1600000 : ℕ) : ℚ) := by
    simp only [animFPS]
    push_cast
    ring
  unfold frameCountOf pyInt
  rw [hq, if_pos (by positivity),
    ← Int.natCast_floor_eq_floor (by positivity), Nat.floor_div_nat,
    Nat.floor_natCast]

/-- C5 counterexample: with frame count 3, indexing the sampler with -1
wraps to frame 2, while frameCount - 2 is frame 1, and the two calls return
items with different frame indices, hence different outputs. -/
theorem negIndex_counterexample :
    (sampleData3.getitem 0 (-1)).idx ≠
      (sampleData3.getitem 0 ((sampleData3.count : ℤ) - 2)).idx := by decide

/-- The item returned by Data.getitem depends on the raw index only through
the wrapped index. -/
lemma getitem_eq_of_effIndex_eq (d : Data) (shift : ℕ) (i j : ℤ)
    (h : d.effIndex i = d.effIndex j) : d.getitem shift i = d.getitem shift j := by
  simp only [Data.getitem, Data.inputRows, h]

/-- C5 amended: indexing the sampler with -1 yields the same output as
indexing it with frameCount - 1: negative indices wrap modulo frameCount,
not relative to the dataset length frameCount - 1. -/
theorem negIndex_wrap (d : Data) (shift : ℕ) (h : 0 < d.count) :
    d.getitem shift (-1) = d.getitem shift ((d.count : ℤ) - 1) := by
  apply getitem_eq_of_effIndex_eq
  have h1 : (1 : ℤ) ≤ (d.count : ℤ) := by exact_mod_cast h
  simp only [Data.effIndex]
  rw [if_pos (by norm_num), if_neg (by omega)]
  omega

/-- Witness for the amended C5 at the concrete dataset with frame count 3. -/
theorem negIndex_wrap_witness :
    0 < sampleData3.count ∧
    sampleData3.getitem 0 (-1) = sampleData3.getitem 0 ((sampleData3.count : ℤ) - 1) :=
  ⟨by decide, negIndex_wrap sampleData3 0 (by decide)⟩

/-- C6 counterexample: the formantAnalysis stack applied to a (1,64,32)
sample does not produce a (256,1,1) latent. -/
theorem formant_shape_counterexample :
    formantAnalysisShape ⟨1, 64, 32⟩ ≠ some ⟨256, 1, 1⟩ := by decide

/-- C6 amended: the formantAnalysis stack maps a (1,64,32) sample to a
(256,64,1) output: the five blocks collapse the trailing 32-wide cepstral
axis to 1 while the 64-long time axis passes through unchanged, and the
later articulation stack is what collapses the 64. -/
theorem formant_shape :
    formantAnalysisShape ⟨1, 64, 32⟩ = some ⟨256, 64, 1⟩ := by decide

/-- C7 counterexample: in preview mode the target tensor has shape
(1, OUTPUT_COUNT), not the non-preview shape (2, OUTPUT_COUNT). -/
theorem preview_target_counterexample :
    (previewData.getitem 0 0).target.shape ≠ [2, OUTPUT_COUNT] := by decide

/-- C7 amended: in preview mode every call returns an all-zero target of
shape (1, OUTPUT_COUNT) and reads no target file. -/
theorem preview_target (d : Data) (shift : ℕ) (i : ℤ) (hp : d.preview = true) :
    (d.getitem shift i).target.shape = [1, OUTPUT_COUNT]
    ∧ (∀ y ∈ (d.getitem shift i).target.data, y = 0)
    ∧ (d.getitem shift i).reads = [] := by
  refine ⟨?_, ?_, ?_⟩ <;> simp [Data.getitem, hp]

/-- Witness for the amended C7 at the concrete preview dataset. -/
theorem preview_target_witness :
    previewData.preview = true ∧
    ((previewData.getitem 0 0).target.shape = [1, OUTPUT_COUNT]
    ∧ (∀ y ∈ (previewData.getitem 0 0).target.data, y = 0)
    ∧ (previewData.getitem 0 0).reads = []) :=
  ⟨rfl, preview_target previewData 0 0 rfl⟩

/-- C8: over any epoch budget, an in-loop checkpoint for 1-based epoch n is
written exactly when n is a positive multiple of 50 inside the budget, the
one save after the loop is the last event, it is the only final save, and
the file names follow the timestamp_E00000.pth and timestamp_fin.pth
patterns. -/
theorem checkpoint_schedule : ∀ epochCount n : ℕ,
    (SaveEvent.epochSave n ∈ saveTrace epochCount ↔
      n % 50 = 0 ∧ 1 ≤ n ∧ n ≤ epochCount)
    ∧ (saveTrace epochCount).getLast? = some SaveEvent.finSave
    ∧ (saveTrace epochCount).count SaveEvent.finSave = 1
    ∧ epochCkptName "t" 50 = "t_E00050.pth"
    ∧ finCkptName "t" = "t_fin.pth" := by
  intro ec n
  refine ⟨⟨?_, ?_⟩, ?_, ?_, by decide, by decide⟩
  · intro hmem
    rcases List.mem_append.1 hmem with hm | hm
    · obtain ⟨a, ha, hif⟩ := List.mem_filterMap.1 hm
      rw [List.mem_range] at ha
      by_cases hc : (a + 1) % 50 = 0
      · rw [if_pos hc] at hif
        have heq : a + 1 = n := by
          have := Option.some.inj hif
          simpa using this
        omega
      · rw [if_neg hc] at hif
        exact absurd hif (by simp)
    · simp at hm
  · rintro ⟨h50, h1, hle⟩
    refine List.mem_append_left _
      (List.mem_filterMap.2 ⟨n - 1, List.mem_range.2 (by omega), ?_⟩)
    have hn : n - 1 + 1 = n := by omega
    rw [hn, if_pos h50]
  · exact List.getLast?_concat _
  · rw [saveTrace, List.count_append]
    have h0 : ((List.range ec).filterMap fun e =>
        if (e + 1) % 50 = 0 then some (SaveEvent.epochSave (e + 1))
        else none).count SaveEvent.finSave = 0 := by
      refine List.count_eq_zero.2 fun hmem => ?_
      obtain ⟨a, _, hif⟩ := List.mem_filterMap.1 hmem
      by_cases hc : (a + 1) % 50 = 0
      · rw [if_pos hc] at hif
        exact absurd (Option.some.inj hif) (by simp)
      · rw [if_neg hc] at hif
        exact absurd hif (by simp)
    rw [h0]
    decide

/-- Subtracting a vector from itself elementwise gives the zero vector. -/
lemma vecSub_self (a : List ℚ) : vecSub a a = List.replicate a.length 0 := by
  induction a with
  | nil => simp [vecSub]
  | cons h t ih =>
    show (h - h) :: vecSub t t = 0 :: List.replicate t.length 0
    rw [sub_self, ih]

/-- The summed squared error of two zero vectors is zero. -/
lemma sqErrSum_zero (n m : ℕ) :
    sqErrSum (List.replicate n 0) (List.replicate m 0) = 0 := by
  simp [sqErrSum]

/-- C9: whenever every pair in the batch has its second prediction equal to
its first and its second target equal to its first, the motion loss is
exactly zero, whatever the absolute gap between predictions and targets. -/
theorem motionLoss_zero (batch : List ((List ℚ × List ℚ) × (List ℚ × List ℚ)))
    (_hne : batch ≠ [])
    (h : ∀ x ∈ batch, x.1.2 = x.1.1 ∧ x.2.2 = x.2.1) :
    motionLoss batch = 0 := by
  have hz : (batch.map fun x =>
      sqErrSum (vecSub x.1.2 x.1.1) (vecSub x.2.2 x.2.1)).sum = 0 := by
    refine List.sum_eq_zero fun y hy => ?_
    obtain ⟨x, hx, rfl⟩ := List.mem_map.1 hy
    obtain ⟨h1, h2⟩ := h x hx
    rw [h1, h2, vecSub_self, vecSub_self, sqErrSum_zero]
  simp [motionLoss, hz]

/-- Concrete one-element batch with identical consecutive predictions and
identical consecutive targets but a large prediction-to-target gap. -/
def motionBatch : List ((List ℚ × List ℚ) × (List ℚ × List ℚ)) :=
  [(([1], [1]), ([5], [5]))]

/-- Witness for C9 at the concrete batch. -/
theorem motionLoss_zero_witness :
    motionBatch ≠ [] ∧
    (∀ x ∈ motionBatch, x.1.2 = x.1.1 ∧ x.2.2 = x.2.1) ∧
    motionLoss motionBatch = 0 :=
  ⟨by simp [motionBatch], by decide,
    motionLoss_zero motionBatch (by simp [motionBatch]) (by decide)⟩

/-- The audio index of a nonnegative frame splits into the unshifted floor
plus the integer shift. -/
lemma audioIdxAt_of_nonneg (d : Data) (shift : ℕ) (k : ℤ) (hk : 0 ≤ k) :
    d.audioIdxAt shift k =
      ⌊(k : ℚ) * ((d.MFCCLen : ℚ) / (d.count : ℚ))⌋ + shift := by
  have hk2 : (0 : ℚ) ≤ (k : ℚ) := by exact_mod_cast hk
  have hr : (0 : ℚ) ≤ (d.MFCCLen : ℚ) / (d.count : ℚ) := by positivity
  have h0 : (0 : ℚ) ≤ (k : ℚ) * ((d.MFCCLen : ℚ) / (d.count : ℚ)) + (shift : ℚ) :=
    add_nonneg (mul_nonneg hk2 hr) (by positivity)
  unfold Data.audioIdxAt pyInt
  rw [if_pos h0, Int.floor_add_nat]

/-- C10: one drawn jitter value is added to both window positions of a
pair, so the spacing between the frame i and frame i+1 audio indices is the
same with any shift as with none. -/
theorem jitter_spacing (d : Data) (shift : ℕ) (i : ℤ) (hi : 0 ≤ i) :
    d.audioIdxAt shift (i + 1) - d.audioIdxAt shift i =
      d.audioIdxAt 0 (i + 1) - d.audioIdxAt 0 i := by
  rw [audioIdxAt_of_nonneg d shift (i + 1) (by omega),
    audioIdxAt_of_nonneg d shift i hi,
    audioIdxAt_of_nonneg d 0 (i + 1) (by omega),
    audioIdxAt_of_nonneg d 0 i hi]
  push_cast
  ring

/-- Witness for C10 at the concrete dataset with shift 1 and frame 0. -/
theorem jitter_spacing_witness :
    (0 : ℤ) ≤ 0 ∧
    sampleData.audioIdxAt 1 (0 + 1) - sampleData.audioIdxAt 1 0 =
      sampleData.audioIdxAt 0 (0 + 1) - sampleData.audioIdxAt 0 0 :=
  ⟨le_refl 0, jitter_spacing sampleData 1 0 (le_refl 0)⟩

end Surat
